import Mathlib

/-!
Verification development for the probing data-preparation and subword-pooling
library (`probing/data/sentence_probe_data.py` and
`probing/models/contextual_embedding_classifier.py`).

Python strings manipulated by the code are modelled as `List Char` so that all
string processing (tab splitting, blank-line tests, decimal parsing) is
structurally recursive and kernel-computable.  Real-valued tensors are modelled
as nested lists of rationals; a tensor of shape (batch, position, hidden) is a
`List (List (List ℚ))`.  The external tokenizer and the pretrained encoder are
collaborators outside this repository and enter as function parameters.
-/

/-- Python strings as character lists, so every operation reduces in the kernel. -/
abbrev Str := List Char

/-- Python `s.split(sep)` for a single-character separator: splits on every
occurrence, keeping empty fields (`"".split(t)` is `[""]`). -/
def splitOnSep (sep : Char) : Str → List Str
  | [] => [[]]
  | c :: rest =>
    let r := splitOnSep sep rest
    if c = sep then [] :: r
    else (c :: r.headD []) :: r.tail

/-- `line.strip()` is falsy iff the line is empty or all whitespace. -/
def isBlankLine (cs : Str) : Bool := cs.all Char.isWhitespace

/-- Python `line.strip()`: drop leading and trailing whitespace. -/
def stripChars (cs : Str) : Str :=
  ((cs.dropWhile Char.isWhitespace).reverse.dropWhile Char.isWhitespace).reverse

/-- Python `int(s)` restricted to the non-negative decimal indices that occur in
the probing input files. -/
def parsePyNat (cs : Str) : Nat :=
  cs.foldl (fun a c => a * 10 + (c.toNat - '0'.toNat)) 0

/-- Python list/array slicing `xs[a:b]` (clamping at both ends). -/
def pySlice (xs : List α) (a b : Nat) : List α := (xs.drop a).take (b - a)

/-- First-match association lookup; a Python dict whose newest binding is the
head of the list. -/
def alookup [DecidableEq κ] (k : κ) : List (κ × ν) → Option ν
  | [] => none
  | p :: rest => if k = p.1 then some p.2 else alookup k rest

/-! ## `Embedding` (word-vector table), from `sentence_probe_data.py` lines 78-112 -/

/-- The `Embedding` class: a word → row-index dict plus the loaded matrix.
(The source class is called `Embedding`; renamed here because Mathlib already
has a root declaration of that name.) -/
structure WordEmbedding where
  vocab : List (Str × Nat)
  mtx : List (List ℚ)
deriving DecidableEq

/-- The loop body of `Embedding.load_stream`: lines with exactly two
space-separated fields are skipped (embedding-file header), filtered words are
skipped when the filter is truthy (non-`None` and non-empty), and every kept
word is bound to the current row count before its vector row is appended.
Float parsing is external (`map(float, fd[1:])`) and enters as a parameter. -/
def embeddingLoadLoop (parseFloat : Str → ℚ) (filt : Option (List Str)) :
    List Str → List (Str × Nat) → List (List ℚ) → WordEmbedding
  | [], vocab, mtx => ⟨vocab, mtx⟩
  | line :: rest, vocab, mtx =>
    let fd := splitOnSep ' ' (stripChars line)
    if fd.length = 2 then embeddingLoadLoop parseFloat filt rest vocab mtx
    else
      let word := fd.getD 0 []
      let skip : Bool :=
        match filt with
        | none => false
        | some f => !f.isEmpty && !(f.contains word)
      if skip then embeddingLoadLoop parseFloat filt rest vocab mtx
      else
        embeddingLoadLoop parseFloat filt rest
          ((word, mtx.length) :: vocab) (mtx ++ [(fd.drop 1).map parseFloat])

/-- `Embedding.load_stream`. -/
def embeddingLoadStream (parseFloat : Str → ℚ) (filt : Option (List Str))
    (lines : List Str) : WordEmbedding :=
  embeddingLoadLoop parseFloat filt lines [] []

/-- Failure of a numpy row access (`IndexError`). -/
inductive EmbGetErr
  | indexErr
deriving DecidableEq

/-- `Embedding.__getitem__`: a key absent from the vocab falls back to
`self.mtx[0]`, which raises `IndexError` when no row was ever loaded; a present
key reads its recorded row. -/
def embeddingGetItem (e : WordEmbedding) (key : Str) : Except EmbGetErr (List ℚ) :=
  match alookup key e.vocab with
  | none =>
    match e.mtx with
    | [] => .error .indexErr
    | r :: _ => .ok r
  | some i => if h : i < e.mtx.length then .ok e.mtx[i] else .error .indexErr

/-- Trivial float parser used only to instantiate concrete examples. -/
def constZeroFloat : Str → ℚ := fun _ => 0

/-! ## `SequenceClassificationWithSubwords` raw extraction and loading,
from `sentence_probe_data.py` lines 278-349 -/

/-- One raw sample of the sequence-tagging variant
(`SequenceClassificationWithSubwordsDataFields`). -/
structure SubwordSample where
  raw_sentence : List Str
  labels : Option (List Str)
  sentence_len : Nat
  tokens : List Str
  sentence_subword_len : Nat
  token_starts : List Nat
deriving DecidableEq

/-- Accumulators of the `create_sentence_from_lines` loop. -/
structure CreateAcc where
  sent : List Str
  labels : List Str
  subwords : List Str
  token_starts : List Nat
deriving DecidableEq

/-- The loop of `create_sentence_from_lines`: each block line is tab-split into
word (and optional label); the current subword count is recorded as the word's
token start before the word's subword pieces are appended; after the loop one
trailing sentinel equal to the total subword count is appended. -/
def createLoop (tok : Str → List Str) : List Str → CreateAcc → CreateAcc
  | [], acc => { acc with token_starts := acc.token_starts ++ [acc.subwords.length] }
  | line :: rest, acc =>
    let fd := splitOnSep '\t' line
    let word := fd.getD 0 []
    createLoop tok rest
      { sent := acc.sent ++ [word]
        labels := if fd.length > 1 then acc.labels ++ [fd.getD 1 []] else acc.labels
        subwords := acc.subwords ++ tok word
        token_starts := acc.token_starts ++ [acc.subwords.length] }

/-- `SequenceClassificationWithSubwords.create_sentence_from_lines`. -/
def createSentenceFromLines (tok : Str → List Str) (lines : List Str) : SubwordSample :=
  let acc := createLoop tok lines ⟨[], [], [], []⟩
  { raw_sentence := acc.sent
    labels := if acc.labels.length = 0 then none else some acc.labels
    sentence_len := acc.sent.length
    tokens := acc.subwords
    sentence_subword_len := acc.subwords.length
    token_starts := acc.token_starts }

/-- `SequenceClassificationWithSubwords.ignore_sample`: drop samples longer
than 500 subwords. -/
def ignoreSample (s : SubwordSample) : Bool := decide (s.sentence_subword_len > 500)

/-- The loop of `SequenceClassificationWithSubwords.load_stream`, with the
post-loop handling of a final unterminated block.  `maxSamples` mirrors the
Python truthiness tests on `self.max_samples` exactly (`None` and `0` are both
falsy for the break test, but only `None` passes the final `is None` test). -/
def loadStreamLoop (tok : Str → List Str) (maxSamples : Option Nat) :
    List Str → List SubwordSample → List Str → List SubwordSample
  | [], raw, sent =>
    if sent.isEmpty then raw
    else if maxSamples = none ∨ raw.length < maxSamples.getD 0 then
      let sample := createSentenceFromLines tok sent
      if ignoreSample sample then raw else raw ++ [sample]
    else raw
  | line :: rest, raw, sent =>
    if isBlankLine line then
      if sent.isEmpty then loadStreamLoop tok maxSamples rest raw []
      else
        let sample := createSentenceFromLines tok sent
        let raw' := if ignoreSample sample then raw else raw ++ [sample]
        -- `break`: the loop stops; the post-loop block then re-tests
        -- `len(raw) < max_samples`, which is false here, so nothing is added.
        if maxSamples.getD 0 ≠ 0 ∧ raw'.length ≥ maxSamples.getD 0 then raw'
        else loadStreamLoop tok maxSamples rest raw' []
    else loadStreamLoop tok maxSamples rest raw (sent ++ [line])

/-- `SequenceClassificationWithSubwords.load_stream`. -/
def loadStream (tok : Str → List Str) (maxSamples : Option Nat)
    (lines : List Str) : List SubwordSample :=
  loadStreamLoop tok maxSamples lines [] []

/-- The blank-line-delimited blocks of a stream, starting from a partially
collected block: the reference decomposition used to state what `load_stream`
keeps. -/
def blocksLoop : List Str → List Str → List (List Str)
  | [], sent => if sent.isEmpty then [] else [sent]
  | line :: rest, sent =>
    if isBlankLine line then
      if sent.isEmpty then blocksLoop rest [] else sent :: blocksLoop rest []
    else blocksLoop rest (sent ++ [line])

/-- The blank-line-delimited blocks of a stream. -/
def blocksOf (lines : List Str) : List (List Str) := blocksLoop lines []


/-! ## Cumulative-offset reference forms used to state alignment properties -/

/-- Cumulative starts with one trailing sentinel: entry `i` is the sum of the
first `i` lengths, and the final entry is the total.   This is the spec's
reading of a token-start array ("the subword offset at which each word begins,
plus a trailing sentinel equal to total subword count"). -/
def cumStarts : List Nat → List Nat
  | [] => [0]
  | x :: rest => 0 :: (cumStarts rest).map (fun t => x + t)

/-- Cumulative starts without the trailing sentinel: one entry per group. -/
def cumInner : List Nat → List Nat
  | [] => []
  | x :: rest => 0 :: (cumInner rest).map (fun t => x + t)

/-- The word of one block line: field 0 of the tab-split line. -/
def lineWord (line : Str) : Str := (splitOnSep '\t' line).getD 0 []

/-- Subword counts per block line under a tokenizer. -/
def pieceLens (tok : Str → List Str) (lines : List Str) : List Nat :=
  lines.map (fun l => (tok (lineWord l)).length)

/-! ## `SentenceProberDataset.extract_sample_from_line`,
from `sentence_probe_data.py` lines 397-494 -/

/-- One raw sample of the token-in-sequence variant
(`TokenInSequenceProberFields`). -/
structure ProbeSample where
  raw_sentence : Str
  raw_target : Str
  raw_idx : Nat
  tokens : List Str
  num_tokens : Nat
  target_idx : Nat
  token_starts : List Nat
  label : Option Str
deriving DecidableEq

/-- Per-word tokenization with mask substitution: a word whose signed offset
from the target word is in `mask_positions` becomes the single mask symbol
instead of its subword pieces. -/
def probeGroups (tok : Str → List Str) (mask : Str) (maskP : List Int)
    (rawIdx : Nat) (words : List Str) : List (List Str) :=
  words.enum.map (fun p =>
    if ((p.1 : Int) - (rawIdx : Int)) ∈ maskP then [mask] else tok p.2)

/-- `np.argsort` of a permutation of `range n`: position of each value. -/
def argsortPerm (p : List Nat) : List Nat :=
  (List.range p.length).map (fun i => p.indexOf i)

/-- `[tokenized[i] for i in all_idx]`. -/
def permuteList (p : List Nat) (xs : List (List Str)) : List (List Str) :=
  p.map (fun i => xs.getD i [])

/-- The merge loop of `extract_sample_from_line`: records the current merged
length as each group's token start, then appends the group's pieces.  Unlike
`create_sentence_from_lines`, no trailing sentinel is appended. -/
def mergeLoop : List (List Str) → List Str → List Nat → List Str × List Nat
  | [], merged, token_starts => (merged, token_starts)
  | pieces :: rest, merged, token_starts =>
    mergeLoop rest (merged ++ pieces) (token_starts ++ [merged.length])

/-- `SentenceProberDataset.extract_sample_from_line`.  The bag-of-words shuffle
(`np.random.shuffle(all_idx)`) is modelled by the permutation parameter `perm`
(the shuffled `arange`).  Note that the source computes
`target_idx = target_map[raw_idx]` and then `target_idx = token_starts[target_idx]`
but passes `target_idx=raw_idx` to the field constructor, leaving the computed
local unused; the model keeps the dead computation under `_localTargetIdx`. -/
def extractSampleFromLine (tok : Str → List Str) (mask : Str) (maskP : List Int)
    (bow : Bool) (perm : List Nat) (line : Str) : ProbeSample :=
  let fd := splitOnSep '\t' line
  let raw_sent := fd.getD 0 []
  let raw_target := fd.getD 1 []
  let label := if fd.length > 3 then some (fd.getD 3 []) else none
  let raw_idx := parsePyNat (fd.getD 2 [])
  let words := splitOnSep ' ' raw_sent
  let tokenized := probeGroups tok mask maskP raw_idx words
  let shuffled := if bow then permuteList perm tokenized else tokenized
  let target_idx := if bow then (argsortPerm perm).getD raw_idx 0 else raw_idx
  let mt := mergeLoop shuffled [] []
  let _localTargetIdx := mt.2.getD target_idx 0
  { raw_sentence := raw_sent
    raw_target := raw_target
    raw_idx := raw_idx
    tokens := mt.1
    num_tokens := mt.1.length
    target_idx := raw_idx
    token_starts := mt.2
    label := label }

/-- A character tokenizer: each word splits into exactly its characters. -/
def charTok : Str → List Str := fun w => w.map (fun c => [c])

/-- A whole-word tokenizer: each word is exactly one subword. -/
def wordTok : Str → List Str := fun w => [w]


/-- The per-word subword groups `extract_sample_from_line` concatenates, after
mask substitution and the optional bag-of-words shuffle. -/
def extractGroups (tok : Str → List Str) (mask : Str) (maskP : List Int)
    (bow : Bool) (perm : List Nat) (line : Str) : List (List Str) :=
  let fd := splitOnSep '\t' line
  let raw_idx := parsePyNat (fd.getD 2 [])
  let words := splitOnSep ' ' (fd.getD 0 [])
  let tokenized := probeGroups tok mask maskP raw_idx words
  if bow then permuteList perm tokenized else tokenized


/-! ## Indexing (`to_idx`), from `sentence_probe_data.py` lines 351-358 and
426-434 (shared token-start code) and 262-264 (target shift) -/

/-- The token-start indexing shared verbatim by
`SequenceClassificationWithSubwords.to_idx` and `SentenceProberDataset.to_idx`:
every raw token start is shifted by +1 for the prepended sentence-start marker,
then the row is bracketed with 0 at the front and `len(tokens[ti]) + 1` at the
end. -/
def prefixTokenStartsToIdx (tokens : List (List Nat)) (tokenStarts : List (List Nat)) :
    List (List Nat) :=
  tokenStarts.enum.map (fun p =>
    (0 :: p.2.map (fun t => t + 1)) ++ [(tokens.getD p.1 []).length + 1])

/-- The target-index shift of `SentenceProberDataset.to_idx` and
`MidSentenceProberDataset.to_idx`: `np.array(target_idx) + 1`. -/
def shiftTargetIdxToIdx (targetIdx : List Nat) : List Nat :=
  targetIdx.map (fun t => t + 1)

/-! ## Batching, from `sentence_probe_data.py` lines 185-194, 360-371, 436-445 -/

/-- The maximum token-start row length within one batch
(`max(len(t) for t in batch.token_starts)`). -/
def batchMaxLen (tokenStarts : List (List Nat)) : Nat :=
  tokenStarts.foldl (fun m t => max m t.length) 0

/-- The token-start padding of `batched_iter` (both subword variants): each row
is right-padded with the sentinel 1000 up to the batch's own maximum row
length. -/
def padTokenStartsBatch (tokenStarts : List (List Nat)) : List (List Nat) :=
  tokenStarts.map (fun ts =>
    ts ++ List.replicate (batchMaxLen tokenStarts - ts.length) 1000)

/-- `range(0, n, batch_size)` for a positive step. -/
def batchStarts (n batchSize : Nat) : List Nat :=
  (List.range ((n + batchSize - 1) / batchSize)).map (fun i => i * batchSize)

/-- `EmbeddingProberDataset.batched_iter`: the batch start offsets are shuffled
(`np.random.shuffle(starts)`, modelled by the permutation parameter `shuffle`)
only when the data is labeled and the shuffle option is enabled; each yielded
batch is the contiguous slice `[start, start + batch_size)` of the materialized
columns. -/
def embBatchedIter {α β : Type _} (isUnlabeled shuffleBatches : Bool)
    (shuffle : List Nat → List Nat) (targetWord : List α) (label : List β)
    (batchSize : Nat) : List (List α × List β) :=
  let starts := batchStarts targetWord.length batchSize
  let starts := if isUnlabeled = false ∧ shuffleBatches = true then shuffle starts
                else starts
  starts.map (fun s =>
    (pySlice targetWord s (s + batchSize), pySlice label s (s + batchSize)))


/-! ## Tensor algebra over ℚ (for the model file
`contextual_embedding_classifier.py`) -/

/-- A hidden vector. -/
abbrev Vec := List ℚ

/-- A (position, hidden) or (batch, hidden) matrix. -/
abbrev Mat := List Vec

/-- A (batch, position, hidden) — or, for a stacked tensor, (layer, ...) —
3-D tensor. -/
abbrev Emb3 := List Mat

def vecAdd (v w : Vec) : Vec := List.zipWith (· + ·) v w

def vecMaxTwo (v w : Vec) : Vec := List.zipWith max v w

def vecScale (c : ℚ) (v : Vec) : Vec := v.map (fun x => c * x)

def matAdd (a b : Mat) : Mat := List.zipWith vecAdd a b

def matMaxTwo (a b : Mat) : Mat := List.zipWith vecMaxTwo a b

def matScale (c : ℚ) (m : Mat) : Mat := m.map (vecScale c)

def emb3Add (a b : Emb3) : Emb3 := List.zipWith matAdd a b

def emb3Scale (c : ℚ) (e : Emb3) : Emb3 := e.map (matScale c)

/-- numpy/torch reduction along axis 0 (`.sum(axis=0)`, `.max(axis=0)`): fold
the elementwise operation over the stacked slices.  The spans reduced by the
pooling code are nonempty; the empty case only supplies a formal default. -/
def foldStack (f : β → β → β) (emptyv : β) : List β → β
  | [] => emptyv
  | r :: rest => rest.foldl f r

/-- `.max(axis=0).values` over a span of hidden vectors. -/
def vecAmax (rows : List Vec) : Vec := foldStack vecMaxTwo [] rows

/-- `.sum(axis=0)` over a span of hidden vectors. -/
def vecSumRows (rows : List Vec) : Vec := foldStack vecAdd [] rows

/-- `.mean(axis=0)` over a span of hidden vectors. -/
def vecMeanRows (rows : List Vec) : Vec :=
  vecScale (1 / (rows.length : ℚ)) (vecSumRows rows)

/-! ## `SentenceRepresentationProber` pooling,
from `contextual_embedding_classifier.py` lines 174-251 -/

/-- `SentenceRepresentationProber._forward_elementwise_pool`: for each sample,
the embedded span `[first, last)` of the target word is reduced.  The source
reads

    if subword_pooling == 'max': o = span.max(axis=0).values
    if subword_pooling == 'sum': o = span.sum(axis=0)
    else: o = span.mean(axis=0)

— the second `if` is not an `elif`, so the `'max'` assignment is dead: it is
always overwritten by the `else` branch's mean.  The model keeps both
assignments, shadowing the first exactly as the source overwrites `o`. -/
def forwardElementwisePool (subwordPooling : String) (embedded : List Mat)
    (tokenStarts : List (List Nat)) (targetIdx : List Nat) : List Vec :=
  (List.range embedded.length).map (fun wi =>
    let t := targetIdx.getD wi 0
    let first := (tokenStarts.getD wi []).getD t 0
    let last := (tokenStarts.getD wi []).getD (t + 1) 0
    let span := pySlice (embedded.getD wi []) first last
    let o := if subwordPooling = "max" then vecAmax span else []
    let o := if subwordPooling = "sum" then vecSumRows span else vecMeanRows span
    o)

/-- `SentenceRepresentationProber._forward_last2`: concatenation of the last
and second-to-last span positions, a zero vector substituted when the span has
length 1. -/
def forwardLast2 (embedded : List Mat) (tokenStarts : List (List Nat))
    (targetIdx : List Nat) : List Vec :=
  (List.range embedded.length).map (fun wi =>
    let t := targetIdx.getD wi 0
    let lastI := (tokenStarts.getD wi []).getD (t + 1) 0 - 1
    let firstI := (tokenStarts.getD wi []).getD t 0
    let last1 := (embedded.getD wi []).getD lastI []
    let last2 := if firstI = lastI then List.replicate last1.length (0 : ℚ)
                 else (embedded.getD wi []).getD (lastI - 1) []
    last1 ++ last2)

/-- `SentenceRepresentationProber._forward_first_plus_last`:
`w * first + (1 - w) * last` with the trained scalar `w` as a parameter. -/
def forwardFirstPlusLast (w : ℚ) (embedded : List Mat)
    (tokenStarts : List (List Nat)) (targetIdx : List Nat) : List Vec :=
  (List.range embedded.length).map (fun wi =>
    let t := targetIdx.getD wi 0
    let lastI := (tokenStarts.getD wi []).getD (t + 1) 0 - 1
    let firstI := (tokenStarts.getD wi []).getD t 0
    vecAdd (vecScale w ((embedded.getD wi []).getD firstI []))
      (vecScale (1 - w) ((embedded.getD wi []).getD lastI [])))

/-! ## `TransformerForSequenceTagging` pooling,
from `contextual_embedding_classifier.py` lines 464-501 -/

/-- The `elif` chain of `_forward_with_cache` for `max`/`avg`/`sum` over one
span, generic in the slice element so that both an ordinary (batch, position,
hidden) tensor and a stacked per-layer tensor (layer pooling `all`) flow
through the same index arithmetic. -/
def reduceSpan (addf maxf : β → β → β) (scalef : ℚ → β → β) (emptyv : β)
    (pooling : String) (span : List β) : β :=
  if pooling = "sum" then foldStack addf emptyv span
  else if pooling = "avg" then scalef (1 / (span.length : ℚ)) (foldStack addf emptyv span)
  else if pooling = "max" then foldStack maxf emptyv span
  else emptyv

/-- The pooling loops of `_forward_with_cache`: for `first`/`last`, one
position per word is gathered per sentence (`token_starts[bi][1:len+1]`, resp.
`token_starts[bi][2:len+2] - 1`); for `max`/`avg`/`sum` the span
`[token_starts[bi][ti+1], token_starts[bi][ti+2])` is reduced; outputs are
concatenated over the batch in sentence order.  Generic in the slice element
(see `reduceSpan`). -/
def taggingPoolCore (addf maxf : β → β → β) (scalef : ℚ → β → β) (emptyv : β)
    (pooling : String) (embedded : List (List β)) (tokenStarts : List (List Nat))
    (sentenceLen : List Nat) (batchSize : Nat) : List β :=
  if pooling = "first" ∨ pooling = "last" then
    (List.range batchSize).flatMap (fun bi =>
      let sl := sentenceLen.getD bi 0
      let tids : List Nat :=
        if pooling = "first" then pySlice (tokenStarts.getD bi []) 1 (sl + 1)
        else (pySlice (tokenStarts.getD bi []) 2 (sl + 2)).map (fun t => t - 1)
      tids.map (fun t => (embedded.getD bi []).getD t emptyv))
  else
    (List.range batchSize).flatMap (fun bi =>
      (List.range (sentenceLen.getD bi 0)).map (fun ti =>
        let first := (tokenStarts.getD bi []).getD (ti + 1) 0
        let last := (tokenStarts.getD bi []).getD (ti + 2) 0
        reduceSpan addf maxf scalef emptyv pooling
          (pySlice (embedded.getD bi []) first last)))


/-! ## `Embedder.embed` and the two model forwards,
from `contextual_embedding_classifier.py` lines 26-97, 253-308, 356-501 -/

/-- Python exception kinds raised by the modelled forward paths. -/
inductive PyErr
  | valueErr (msg : String)
  | keyErr (key : String)
  | typeErr (msg : String)
deriving DecidableEq

/-- The result of `Embedder.embed`: every layer pooling except `all` produces a
single (batch, position, hidden) tensor; `all` returns the stacked per-layer
tensor. -/
inductive EmbedOut
  | single (e : Emb3)
  | stacked (layers : List Emb3)
deriving DecidableEq

/-- `torch.sum(torch.stack(out), axis=0)`. -/
def sumLayers (layers : List Emb3) : Emb3 := foldStack emb3Add [] layers

/-- `(w[:, None, None, None] * torch.stack(out)).sum(0)` with `w` the softmaxed
layer weights.  The softmax of the trained weight vector is deterministic
between forward calls with frozen parameters, so the already-softmaxed weights
enter as the parameter. -/
def weightedSumLayers (w : List ℚ) (layers : List Emb3) : Emb3 :=
  foldStack emb3Add [] (List.zipWith emb3Scale w layers)

/-- `int(s)` as used on `layer_pooling` at `Embedder.__init__` (falling back to
the string when the conversion raises). -/
def decDigitsVal (cs : List Char) : Option Nat :=
  if cs.isEmpty then none
  else if cs.all Char.isDigit then
    some (cs.foldl (fun a c => a * 10 + (c.toNat - '0'.toNat)) 0)
  else none

/-- Decimal integer strings accepted by `int(...)`. -/
def pyToIntOpt (s : String) : Option Int :=
  match s.toList with
  | '-' :: rest => (decDigitsVal rest).map (fun n => -(n : Int))
  | cs => (decDigitsVal cs).map (fun n => (n : Int))

/-- Python negative-index tensor access `out[i]` (indices out of range are not
exercised by the claims and default to an empty tensor). -/
def pyIntIndex (layers : List Emb3) (i : Int) : Emb3 :=
  if 0 ≤ i then layers.getD i.toNat []
  else layers.getD (layers.length - (-i).toNat) []

/-- `Embedder.embed`: dispatch over the layer pooling name (a numeric string
was converted to an int at construction, modelled by `pyToIntOpt`), ending in
`raise ValueError(f"Unknown pooling mechanism: {self.layer_pooling}")`.
`outLayers` is the per-layer output of the underlying encoder forward. -/
def embedderEmbed (layerPooling : String) (w : List ℚ) (outLayers : List Emb3) :
    Except PyErr EmbedOut :=
  if layerPooling = "weighted_sum" then .ok (.single (weightedSumLayers w outLayers))
  else if layerPooling = "all" then .ok (.stacked outLayers)
  else if layerPooling = "sum" then .ok (.single (sumLayers outLayers))
  else if layerPooling = "last" then .ok (.single (outLayers.getLast?.getD []))
  else if layerPooling = "first" then .ok (.single (outLayers.getD 0 []))
  else
    match pyToIntOpt layerPooling with
    | some i => .ok (.single (pyIntIndex outLayers i))
    | none => .error (.valueErr ("Unknown pooling mechanism: " ++ layerPooling))

/-- The fields of one batch consumed by `TransformerForSequenceTagging`. -/
structure TagBatch where
  input : List (List Nat)
  sentence_subword_len : List Nat
  sentence_len : List Nat
  token_starts : List (List Nat)
deriving DecidableEq

/-- A pooled output: vectors per word for an ordinary embedded tensor, matrices
per word when a stacked (`all`) tensor flowed through the same loops. -/
inductive PoolOut
  | vecs (v : List Vec)
  | mats (m : List Mat)
deriving DecidableEq

/-- Mutable state of a `TransformerForSequenceTagging` instance: the `_cache`
dict keyed by the flattened batch input ids, plus an instrumentation counter of
`Embedder.embed` invocations (the expensive encoder pass). -/
structure TagModelState where
  cache : List (List Nat × PoolOut)
  encoderCalls : Nat
deriving DecidableEq

/-- The pooling loops of `_forward_with_cache` applied to an embed result: a
`single` tensor is indexed batch-first; a `stacked` tensor flows through the
same loops with its leading (layer) axis in place of the batch axis, exactly as
the source's tensor indexing would. -/
def taggingPoolOut (pooling : String) (eo : EmbedOut) (batch : TagBatch) : PoolOut :=
  match eo with
  | .single embedded =>
    .vecs (taggingPoolCore vecAdd vecMaxTwo vecScale [] pooling embedded
      batch.token_starts batch.sentence_len batch.input.length)
  | .stacked layers =>
    .mats (taggingPoolCore matAdd matMaxTwo matScale [] pooling layers
      batch.token_starts batch.sentence_len batch.input.length)

/-- The subword poolings served by `_forward_with_cache`. -/
def cachedPoolings : List String := ["first", "last", "max", "sum", "avg"]

/-- The keys of `TransformerForSequenceTagging.pooling_func`. -/
def tagPoolingKeys : List String :=
  ["first", "last", "max", "sum", "avg", "last2", "f+l", "lstm", "attn"]

/-- `TransformerForSequenceTagging._forward_with_cache`: the cache key is the
flattened content of the batch's input ids; on a hit the stored pooled tensor
is returned without invoking the encoder; on a miss the encoder is embedded
(one `embed` call), pooled, stored and returned. -/
def taggingForwardWithCache (subwordPooling layerPooling : String) (w : List ℚ)
    (encoderForward : List (List Nat) → List Emb3) (batch : TagBatch)
    (st : TagModelState) : Except PyErr (PoolOut × TagModelState) :=
  let key := batch.input.flatten
  match alookup key st.cache with
  | some out => .ok (out, st)
  | none =>
    match embedderEmbed layerPooling w (encoderForward batch.input) with
    | .error e => .error e
    | .ok eo =>
      let out := taggingPoolOut subwordPooling eo batch
      .ok (out, ⟨(key, out) :: st.cache, st.encoderCalls + 1⟩)

/-- `TransformerForSequenceTagging.forward`: dict dispatch over
`pooling_func[subword_pooling]` (an unknown name fails the lookup with a
`KeyError` naming the key); `first`/`last`/`max`/`sum`/`avg` go through the
cache, the remaining strategies (`last2`, `f+l`, `lstm`, `attn`) embed on every
call and involve trained submodules, abstracted by the `otherPool` parameter.
The downstream dropout/MLP head is an external collaborator and out of scope. -/
def taggingForward (subwordPooling layerPooling : String) (w : List ℚ)
    (encoderForward : List (List Nat) → List Emb3)
    (otherPool : String → EmbedOut → TagBatch → PoolOut)
    (batch : TagBatch) (st : TagModelState) : Except PyErr (PoolOut × TagModelState) :=
  if subwordPooling ∈ tagPoolingKeys then
    if subwordPooling ∈ cachedPoolings then
      taggingForwardWithCache subwordPooling layerPooling w encoderForward batch st
    else
      match embedderEmbed layerPooling w (encoderForward batch.input) with
      | .error e => .error e
      | .ok eo => .ok (otherPool subwordPooling eo batch,
          ⟨st.cache, st.encoderCalls + 1⟩)
  else .error (.keyErr subwordPooling)


/-! ## `SentenceRepresentationProber` forward and cache,
from `contextual_embedding_classifier.py` lines 100-308 -/

/-- The fields of one batch consumed by `SentenceRepresentationProber`
(`probe_target_idx` resolves to the sample's target index). -/
structure ProbBatch where
  input : List (List Nat)
  input_len : List Nat
  target_idx : List Nat
  token_starts : List (List Nat)
deriving DecidableEq

/-- The prober's `self.layer_pooling` as the forward code consumes it:
`weighted_sum` (softmaxed trained weights attached), `sum`, or an integer layer
index.  Any other string value would be used as a tensor index and is a type
error at runtime, not a recognized strategy. -/
inductive ProbLayerPooling
  | weightedSum (w : List ℚ)
  | layerSum
  | layerIdx (i : Nat)
deriving DecidableEq

/-- A cached value of `_forward_first_last`: the full per-layer target vectors
under `weighted_sum` layer pooling, an already layer-pooled (batch, hidden)
matrix otherwise. -/
inductive ProbCached
  | perLayer (v : List Mat)
  | pooled (v : Mat)
deriving DecidableEq

/-- Mutable state of a `SentenceRepresentationProber` instance: the `_cache`
dict keyed by (flattened input ids, target indices), plus the embed-call
counter. -/
structure ProbModelState where
  cache : List ((List Nat × List Nat) × ProbCached)
  encoderCalls : Nat
deriving DecidableEq

/-- The per-sample subword position chosen by `_forward_first_last`:
`token_starts[helper, target_idx]` for `first`,
`token_starts[helper, target_idx + 1] - 1` for `last`; any other pooling on
this path raises the source's `ValueError` (unreachable from `forward`, whose
guard routes only `first`/`last` here). -/
def firstLastIdxSelect (subwordPooling : String) (batchSize : Nat)
    (tokenStarts : List (List Nat)) (targetIdx : List Nat) :
    Except PyErr (List Nat) :=
  if subwordPooling = "first" then
    .ok ((List.range batchSize).map (fun wi =>
      (tokenStarts.getD wi []).getD (targetIdx.getD wi 0) 0))
  else if subwordPooling = "last" then
    .ok ((List.range batchSize).map (fun wi =>
      (tokenStarts.getD wi []).getD (targetIdx.getD wi 0 + 1) 0 - 1))
  else
    .error (.valueErr ("Subword pooling " ++ subwordPooling ++
      " with caching is not supported."))

/-- The maximum of a nonempty integer list (`np.max`). -/
def maxListInt : List Int → Int
  | [] => 0
  | x :: rest => rest.foldl max x

/-- The `shift_target` adjustment of `_forward_first_last` (applied only when
the configured shift is nonzero): add the shift, clamp per row at
`input_len - 1`, then clip into `[0, max(input_len - 1)]`. -/
def shiftIdx (shiftTarget : Int) (inputLen : List Nat) (idx : List Nat) : List Nat :=
  if shiftTarget ≠ 0 then
    let shiftMax : List Int := inputLen.map (fun l => (l : Int) - 1)
    let shifted : List Int := idx.map (fun i => (i : Int) + shiftTarget)
    let clipped := List.zipWith min shifted shiftMax
    let m := maxListInt shiftMax
    (clipped.map (fun v => max 0 (min v m))).map Int.toNat
  else idx

/-- The read-out after the cache access of `_forward_first_last`: under
`weighted_sum` layer pooling the cached per-layer vectors are combined with the
softmaxed weights; otherwise the cached tensor is returned as stored.  (A
mismatch between the cache entry kind and the instance's layer pooling cannot
occur within one model instance and defaults to an empty tensor.) -/
def probPostProcess (lp : ProbLayerPooling) (cv : ProbCached) : Mat :=
  match lp with
  | .weightedSum w =>
    match cv with
    | .perLayer v => foldStack matAdd [] (List.zipWith matScale w v)
    | .pooled _ => []
  | _ =>
    match cv with
    | .pooled v => v
    | .perLayer _ => []

/-- `SentenceRepresentationProber._forward_first_last`: cache key = (flattened
input ids, target indices); on a miss the encoder is embedded with layer
pooling `all` (`encoderAll`, one embed call), the per-sample position is
selected and optionally shifted, `embedded[:, helper, idx]` is gathered, and
the value stored depends on the layer pooling (full per-layer tensor for
`weighted_sum`, summed or indexed otherwise); on a hit nothing is embedded. -/
def proberForwardFirstLast (subwordPooling : String) (lp : ProbLayerPooling)
    (shiftTarget : Int) (encoderAll : List (List Nat) → List Emb3)
    (batch : ProbBatch) (st : ProbModelState) :
    Except PyErr (Mat × ProbModelState) :=
  let key := (batch.input.flatten, batch.target_idx)
  match alookup key st.cache with
  | some cv => .ok (probPostProcess lp cv, st)
  | none =>
    let stacked := encoderAll batch.input
    let batchSize := (stacked.getD 0 []).length
    match firstLastIdxSelect subwordPooling batchSize batch.token_starts
        batch.target_idx with
    | .error e => .error e
    | .ok idx0 =>
      let idx := shiftIdx shiftTarget batch.input_len idx0
      let targetVecs : List Mat := stacked.map (fun layer =>
        (List.range batchSize).map (fun wi =>
          (layer.getD wi []).getD (idx.getD wi 0) []))
      let cv : ProbCached :=
        match lp with
        | .weightedSum _ => .perLayer targetVecs
        | .layerSum => .pooled (foldStack matAdd [] targetVecs)
        | .layerIdx i => .pooled (targetVecs.getD i [])
      .ok (probPostProcess lp cv, ⟨(key, cv) :: st.cache, st.encoderCalls + 1⟩)

/-- The keys of `SentenceRepresentationProber.pooling_func`. -/
def proberPoolKeys : List String :=
  ["first", "last", "max", "sum", "avg", "last2", "f+l", "lstm", "attn"]

/-- `SentenceRepresentationProber.forward`: `first`/`last` go through
`_forward_first_last` (cached); every other pooling re-embeds on each call
("caching not supported"), selects the configured layer from the stacked
tensor, and dispatches through `pooling_func[subword_pooling]` — an unknown
name fails that dict lookup with a `KeyError`.  `lstm`/`attn` involve trained
submodules and are abstracted by `otherPool`; the MLP head is external. -/
def proberForward (subwordPooling : String) (lp : ProbLayerPooling)
    (shiftTarget : Int) (wfl : ℚ) (encoderAll : List (List Nat) → List Emb3)
    (otherPool : String → List Mat → ProbBatch → List Vec)
    (batch : ProbBatch) (st : ProbModelState) :
    Except PyErr (List Vec × ProbModelState) :=
  if subwordPooling = "first" ∨ subwordPooling = "last" then
    proberForwardFirstLast subwordPooling lp shiftTarget encoderAll batch st
  else
    -- caching not supported on this path: the encoder runs on every call
    let stacked := encoderAll batch.input
    let embeddedE : Except PyErr (List Mat) :=
      match lp with
      | .layerSum => .ok (sumLayers stacked)
      | .layerIdx i => .ok (stacked.getD i [])
      | .weightedSum _ =>
        -- `embedded[self.layer_pooling]` with a non-integer index; unreachable:
        -- `check_params` rejects weighted_sum with non-first/last pooling
        .error (.typeErr "tensors cannot be indexed by a pooling name")
    match embeddedE with
    | .error e => .error e
    | .ok embedded =>
      if subwordPooling ∈ proberPoolKeys then
        let out :=
          if subwordPooling = "max" ∨ subwordPooling = "sum" ∨ subwordPooling = "avg" then
            forwardElementwisePool subwordPooling embedded batch.token_starts
              batch.target_idx
          else if subwordPooling = "last2" then
            forwardLast2 embedded batch.token_starts batch.target_idx
          else if subwordPooling = "f+l" then
            forwardFirstPlusLast wfl embedded batch.token_starts batch.target_idx
          else otherPool subwordPooling embedded batch
        .ok (out, ⟨st.cache, st.encoderCalls + 1⟩)
      else .error (.keyErr subwordPooling)

/-- Whether a modelled forward outcome is a `ValueError`. -/
def tagOutcomeIsValueErr : Except PyErr (PoolOut × TagModelState) → Bool
  | .error (.valueErr _) => true
  | _ => false


/-! ## Concrete components to instantiate the model theorems -/

/-- A one-layer stub encoder for the tagging model: batch of one row, two
positions, hidden size one. -/
def encW : List (List Nat) → List Emb3 := fun _ => [[[[9], [7]]]]

/-- A stub for the trained pooling submodules of the tagging model. -/
def otherW : String → EmbedOut → TagBatch → PoolOut := fun _ _ _ => .vecs []

/-- A one-sentence batch for the tagging model: one word spanning subword
positions `[1, 2)` after the start marker. -/
def batchW : TagBatch := ⟨[[5]], [2], [1], [[0, 1, 2, 2]]⟩

/-- A one-layer stub encoder for the per-target prober. -/
def encP : List (List Nat) → List Emb3 := fun _ => [[[[4], [6]]]]

/-- A stub for the trained pooling submodules of the prober. -/
def otherP : String → List Mat → ProbBatch → List Vec := fun _ _ _ => []

/-- A one-sample batch for the per-target prober: the target word spans subword
positions `[0, 2)`. -/
def batchP : ProbBatch := ⟨[[7]], [2], [0], [[0, 2]]⟩

-- ### DEFS-END ###

/-! ## Theorems -/

theorem alookup_cons_self [DecidableEq κ] (k : κ) (v : ν) (l : List (κ × ν)) :
    alookup k ((k, v) :: l) = some v := by
  simp [alookup]

/-- Claim C10, counterexample: on an embedding loaded from an empty stream the
matrix is empty, and looking up a word absent from the vocabulary fails with an
index error instead of returning row 0 — so `__getitem__` is not error-free for
every absent key. -/
theorem embedding_getitem_empty_cex :
    (embeddingLoadStream constZeroFloat none []).mtx = [] ∧
    embeddingGetItem (embeddingLoadStream constZeroFloat none []) ['x'] =
      .error .indexErr := by
  exact ⟨rfl, rfl⟩

/-- Claim C10 (amended): for every embedding with at least one loaded row,
`__getitem__` of a key absent from the vocabulary returns row 0 of the matrix
(the vector of the first loaded word) without raising; only when no row was
loaded does the fallback access `mtx[0]` fail. -/
theorem embedding_getitem_unknown_amended (e : WordEmbedding) (key : Str)
    (hne : e.mtx ≠ []) (habs : alookup key e.vocab = none) :
    embeddingGetItem e key = .ok (e.mtx.headD []) := by
  unfold embeddingGetItem
  rw [habs]
  cases h : e.mtx with
  | nil => exact absurd h hne
  | cons r rest => simp

/-- Claim C10 witness: a concrete embedding with one loaded word returns that
word's row for an absent key. -/
theorem embedding_getitem_unknown_witness :
    embeddingGetItem (embeddingLoadStream constZeroFloat none ["a 1 2".toList]) ['b'] =
      .ok ((embeddingLoadStream constZeroFloat none ["a 1 2".toList]).mtx.headD []) :=
  embedding_getitem_unknown_amended _ _ (by decide) (by decide)

theorem loadStreamLoop_none_eq (tok : Str → List Str) (lines : List Str) :
    ∀ raw sent,
      loadStreamLoop tok none lines raw sent =
        raw ++ ((blocksLoop lines sent).map (createSentenceFromLines tok)).filter
          (fun s => !ignoreSample s) := by
  induction lines with
  | nil =>
    intro raw sent
    by_cases h : sent.isEmpty
    · simp [loadStreamLoop, blocksLoop, h, List.filter]
    · simp only [loadStreamLoop, blocksLoop, h, if_false, Bool.false_eq_true,
        ite_false, ite_true, Option.getD_none, or_true, if_true]
      cases hig : ignoreSample (createSentenceFromLines tok sent) <;>
        simp [hig, List.filter]
  | cons line rest ih =>
    intro raw sent
    by_cases hb : isBlankLine line
    · by_cases h : sent.isEmpty
      · simp [loadStreamLoop, blocksLoop, hb, h, ih]
      · simp only [loadStreamLoop, blocksLoop, hb, h, if_true, if_false,
          Bool.false_eq_true, ite_false, ite_true]
        cases hig : ignoreSample (createSentenceFromLines tok sent) <;>
          simp [hig, ih, List.filter]
    · simp [loadStreamLoop, blocksLoop, hb, ih]

/-- Claim C5: with no sample cap (the default `max_samples=None`), the raw list
loaded by the sequence-tagging variant is exactly the blank-line-delimited
blocks, in input order, with every sample of more than 500 subwords silently
dropped (no error value exists — `load_stream` is total) and every sample of at
most 500 subwords kept. -/
theorem load_stream_filters_oversized (tok : Str → List Str) (lines : List Str) :
    loadStream tok none lines =
      ((blocksOf lines).map (createSentenceFromLines tok)).filter
        (fun s => decide (s.sentence_subword_len ≤ 500)) := by
  have h := loadStreamLoop_none_eq tok lines [] []
  simp only [loadStream, blocksOf, h, List.nil_append]
  congr 1
  funext s
  simp only [ignoreSample]
  rw [← decide_not]
  simp [Nat.not_lt]

/-! ### Cumulative-offset lemmas -/

theorem getD_map_lt {α β : Type _} (f : α → β) (l : List α) (i : Nat)
    (h : i < l.length) (d : α) (d' : β) :
    (l.map f).getD i d' = f (l.getD i d) := by
  rw [List.getD_eq_getElem _ _ (by simpa using h), List.getD_eq_getElem _ _ h,
    List.getElem_map]

theorem cumStarts_length (xs : List Nat) : (cumStarts xs).length = xs.length + 1 := by
  induction xs with
  | nil => rfl
  | cons x rest ih => simp [cumStarts, ih]

theorem cumStarts_getD_zero (xs : List Nat) : (cumStarts xs).getD 0 0 = 0 := by
  cases xs <;> rfl

theorem cumStarts_getD_succ (xs : List Nat) (i : Nat) (h : i < xs.length) :
    (cumStarts xs).getD (i + 1) 0 = (cumStarts xs).getD i 0 + xs.getD i 0 := by
  induction xs generalizing i with
  | nil => simp at h
  | cons x rest ih =>
    cases i with
    | zero =>
      simp only [cumStarts, List.getD_cons_succ, List.getD_cons_zero]
      rw [getD_map_lt _ _ 0 (by simp [cumStarts_length]) 0 0, cumStarts_getD_zero]
      omega
    | succ j =>
      have hj : j < rest.length := by simpa using h
      simp only [cumStarts, List.getD_cons_succ]
      rw [getD_map_lt _ _ (j + 1) (by simp [cumStarts_length]; omega) 0 0,
        getD_map_lt _ _ j (by simp [cumStarts_length]; omega) 0 0, ih j hj]
      simp [Nat.add_assoc]

theorem cumStarts_getD_last (xs : List Nat) :
    (cumStarts xs).getD xs.length 0 = xs.sum := by
  induction xs with
  | nil => rfl
  | cons x rest ih =>
    simp only [cumStarts, List.length_cons, List.getD_cons_succ, List.sum_cons]
    rw [getD_map_lt _ _ rest.length (by simp [cumStarts_length]) 0 0, ih]

theorem cumInner_length (xs : List Nat) : (cumInner xs).length = xs.length := by
  induction xs with
  | nil => rfl
  | cons x rest ih => simp [cumInner, ih]

theorem cumInner_getD_zero (xs : List Nat) : (cumInner xs).getD 0 0 = 0 := by
  cases xs <;> rfl

theorem cumInner_getD_succ (xs : List Nat) (i : Nat) (h : i + 1 < xs.length) :
    (cumInner xs).getD (i + 1) 0 = (cumInner xs).getD i 0 + xs.getD i 0 := by
  induction xs generalizing i with
  | nil => simp at h
  | cons x rest ih =>
    cases i with
    | zero =>
      have h0 : 0 < (cumInner rest).length := by
        simp only [cumInner_length]
        simpa using h
      simp only [cumInner, List.getD_cons_succ, List.getD_cons_zero]
      rw [getD_map_lt _ _ 0 h0 0 0, cumInner_getD_zero]
      omega
    | succ j =>
      have hj : j + 1 < rest.length := by simpa using h
      simp only [cumInner, List.getD_cons_succ]
      rw [getD_map_lt _ _ (j + 1) (by simp [cumInner_length]; omega) 0 0,
        getD_map_lt _ _ j (by simp [cumInner_length]; omega) 0 0, ih j hj]
      simp [Nat.add_assoc]

/-! ### Characterizations of the extraction loops -/

theorem createLoop_token_starts (tok : Str → List Str) (lines : List Str) :
    ∀ acc : CreateAcc,
      (createLoop tok lines acc).token_starts =
        acc.token_starts ++ (cumStarts (pieceLens tok lines)).map
          (fun t => acc.subwords.length + t) := by
  induction lines with
  | nil => intro acc; simp [createLoop, pieceLens, cumStarts]
  | cons line rest ih =>
    intro acc
    simp only [createLoop]
    rw [ih]
    simp [pieceLens, cumStarts, lineWord, List.length_append, List.append_assoc,
      List.map_map, Function.comp, Nat.add_assoc]

theorem createLoop_subwords_length (tok : Str → List Str) (lines : List Str) :
    ∀ acc : CreateAcc,
      (createLoop tok lines acc).subwords.length =
        acc.subwords.length + (pieceLens tok lines).sum := by
  induction lines with
  | nil => intro acc; simp [createLoop, pieceLens]
  | cons line rest ih =>
    intro acc
    simp only [createLoop]
    rw [ih]
    simp [pieceLens, lineWord, List.length_append]
    omega

theorem create_token_starts (tok : Str → List Str) (lines : List Str) :
    (createSentenceFromLines tok lines).token_starts =
      cumStarts (pieceLens tok lines) := by
  simp [createSentenceFromLines, createLoop_token_starts]

theorem create_tokens_length (tok : Str → List Str) (lines : List Str) :
    (createSentenceFromLines tok lines).tokens.length =
      (pieceLens tok lines).sum := by
  simp [createSentenceFromLines, createLoop_subwords_length]

theorem mergeLoop_starts (groups : List (List Str)) :
    ∀ merged ts, (mergeLoop groups merged ts).2 =
      ts ++ (cumInner (groups.map List.length)).map (fun t => merged.length + t) := by
  induction groups with
  | nil => intro merged ts; simp [mergeLoop, cumInner]
  | cons g rest ih =>
    intro merged ts
    simp only [mergeLoop]
    rw [ih]
    simp [cumInner, List.length_append, List.append_assoc, List.map_map,
      Function.comp, Nat.add_assoc]

theorem mergeLoop_merged_length (groups : List (List Str)) :
    ∀ merged ts, (mergeLoop groups merged ts).1.length =
      merged.length + (groups.map List.length).sum := by
  induction groups with
  | nil => intro merged ts; simp [mergeLoop]
  | cons g rest ih =>
    intro merged ts
    simp only [mergeLoop]
    rw [ih]
    simp [List.length_append]
    omega

theorem extract_token_starts_eq (tok : Str → List Str) (mask : Str)
    (maskP : List Int) (bow : Bool) (perm : List Nat) (line : Str) :
    (extractSampleFromLine tok mask maskP bow perm line).token_starts =
      cumInner ((extractGroups tok mask maskP bow perm line).map List.length) := by
  simp [extractSampleFromLine, extractGroups, mergeLoop_starts]

theorem extract_tokens_length (tok : Str → List Str) (mask : Str)
    (maskP : List Int) (bow : Bool) (perm : List Nat) (line : Str) :
    (extractSampleFromLine tok mask maskP bow perm line).tokens.length =
      ((extractGroups tok mask maskP bow perm line).map List.length).sum := by
  simp [extractSampleFromLine, extractGroups, mergeLoop_merged_length]

/-- Claim C3, counterexample: `SentenceProberDataset.extract_sample_from_line`
does not append the trailing sentinel, so for the sentence "a bb ccc" under a
character tokenizer the raw token-start array is `[0, 1, 3]`, of length
`word_count` and not `word_count + 1`. -/
theorem extract_token_starts_no_sentinel_cex :
    (extractSampleFromLine charTok [] [] false [] "a bb ccc\tbb\t1".toList).token_starts
      = [0, 1, 3] ∧
    (extractSampleFromLine charTok [] [] false [] "a bb ccc\tbb\t1".toList).token_starts.length
      ≠ (splitOnSep ' ' "a bb ccc".toList).length + 1 := by
  decide

/-- Claim C3 (amended): `create_sentence_from_lines` produces a token-start
array of length `word_count + 1` whose consecutive half-open spans tile the
full subword sequence with no gaps or overlaps — entry 0 is 0, each entry
advances by exactly the word's subword count, and the final entry equals the
total subword count — and on sentence "a bb ccc" with a character tokenizer it
is `[0, 1, 3, 6]` pre-shift.  `extract_sample_from_line`, by contrast, produces
a token-start array of length `word_count` (one cumulative offset per word, no
trailing sentinel; the closing bracket is only added later by `to_idx`): its
entries tile the subword sequence the same way with the last span ending
implicitly at the total subword count, and on the same sentence it is
`[0, 1, 3]`. -/
theorem token_starts_alignment_amended (tok : Str → List Str) (lines : List Str)
    (mask : Str) (maskP : List Int) (bow : Bool) (perm : List Nat) (line : Str) :
    ((createSentenceFromLines tok lines).token_starts.length = lines.length + 1
      ∧ (createSentenceFromLines tok lines).token_starts.getD 0 0 = 0
      ∧ (∀ i, i < lines.length →
          (createSentenceFromLines tok lines).token_starts.getD (i + 1) 0 =
            (createSentenceFromLines tok lines).token_starts.getD i 0 +
              (tok (lineWord (lines.getD i []))).length)
      ∧ (createSentenceFromLines tok lines).token_starts.getD lines.length 0 =
          (createSentenceFromLines tok lines).tokens.length)
    ∧ ((extractSampleFromLine tok mask maskP bow perm line).token_starts.length =
          (extractGroups tok mask maskP bow perm line).length
      ∧ (extractSampleFromLine tok mask maskP bow perm line).token_starts.getD 0 0 = 0
      ∧ (∀ i, i + 1 < (extractGroups tok mask maskP bow perm line).length →
          (extractSampleFromLine tok mask maskP bow perm line).token_starts.getD (i + 1) 0 =
            (extractSampleFromLine tok mask maskP bow perm line).token_starts.getD i 0 +
              ((extractGroups tok mask maskP bow perm line).getD i []).length)
      ∧ (extractSampleFromLine tok mask maskP bow perm line).tokens.length =
          ((extractGroups tok mask maskP bow perm line).map List.length).sum)
    ∧ (createSentenceFromLines charTok ["a".toList, "bb".toList, "ccc".toList]).token_starts
        = [0, 1, 3, 6]
    ∧ (extractSampleFromLine charTok [] [] false [] "a bb ccc\tbb\t1".toList).token_starts
        = [0, 1, 3] := by
  refine ⟨⟨?_, ?_, ?_, ?_⟩, ⟨?_, ?_, ?_, ?_⟩, by decide, by decide⟩
  · rw [create_token_starts, cumStarts_length]
    simp [pieceLens]
  · rw [create_token_starts]
    exact cumStarts_getD_zero _
  · intro i hi
    rw [create_token_starts,
      cumStarts_getD_succ _ _ (by simpa [pieceLens] using hi)]
    congr 1
    simp only [pieceLens]
    rw [getD_map_lt _ _ i (by simpa using hi) [] 0]
  · rw [create_token_starts, create_tokens_length]
    have := cumStarts_getD_last (pieceLens tok lines)
    simpa [pieceLens] using this
  · rw [extract_token_starts_eq, cumInner_length]
    simp
  · rw [extract_token_starts_eq]
    exact cumInner_getD_zero _
  · intro i hi
    rw [extract_token_starts_eq,
      cumInner_getD_succ _ _ (by simpa using hi)]
    congr 1
    rw [getD_map_lt _ _ i (by omega) [] 0]
  · exact extract_tokens_length tok mask maskP bow perm line

/-- Claim C3 witness: the tiling equations instantiated at the concrete
"a bb ccc" example, at word index 1. -/
theorem token_starts_alignment_witness :
    ((createSentenceFromLines charTok ["a".toList, "bb".toList, "ccc".toList]).token_starts.getD 2 0 =
      (createSentenceFromLines charTok ["a".toList, "bb".toList, "ccc".toList]).token_starts.getD 1 0 +
        (charTok (lineWord (["a".toList, "bb".toList, "ccc".toList].getD 1 []))).length)
    ∧ ((extractSampleFromLine charTok [] [] false [] "a bb ccc\tbb\t1".toList).token_starts.getD 2 0 =
      (extractSampleFromLine charTok [] [] false [] "a bb ccc\tbb\t1".toList).token_starts.getD 1 0 +
        ((extractGroups charTok [] [] false [] "a bb ccc\tbb\t1".toList).getD 1 []).length) :=
  have h := token_starts_alignment_amended charTok ["a".toList, "bb".toList, "ccc".toList]
    [] [] false [] "a bb ccc\tbb\t1".toList
  ⟨h.1.2.2.1 1 (by decide), h.2.1.2.2.1 1 (by decide)⟩

/-- Claim C2 (code bug): under bag-of-words mode the source computes the
target's post-shuffle position through the inverse permutation
(`target_map = np.argsort(all_idx)`, then `target_map[raw_idx]`) and even
converts it to a token offset, but then passes `target_idx=raw_idx` to the
returned sample, discarding the computed value.  Concretely, for the line
"a b\ta\t0" (target word "a" at word index 0) under the shuffle `[1, 0]`, the
shuffled subwords are `["b", "a"]`, the inverse permutation places the target
at post-shuffle position 1, yet the stored target index is 0, whose span
`[0, 1)` holds the subword of "b", not the tokenization of the target "a". -/
theorem bow_target_idx_bug :
    (extractSampleFromLine wordTok ['M'] [] true [1, 0] "a b\ta\t0".toList).target_idx = 0
    ∧ (argsortPerm [1, 0]).getD 0 0 = 1
    ∧ (extractSampleFromLine wordTok ['M'] [] true [1, 0] "a b\ta\t0".toList).tokens
        = [['b'], ['a']]
    ∧ (extractSampleFromLine wordTok ['M'] [] true [1, 0] "a b\ta\t0".toList).token_starts
        = [0, 1]
    ∧ pySlice (extractSampleFromLine wordTok ['M'] [] true [1, 0] "a b\ta\t0".toList).tokens 0 1
        = [['b']]
    ∧ wordTok "a".toList = [['a']]
    ∧ ([['b']] : List Str) ≠ [['a']] := by
  decide

/-! ### Indexing and batching lemmas -/

theorem prefixTokenStartsToIdx_row (tokens tss : List (List Nat)) (ti : Nat)
    (h : ti < tss.length) :
    (prefixTokenStartsToIdx tokens tss).getD ti [] =
      (0 :: (tss.getD ti []).map (fun t => t + 1)) ++ [(tokens.getD ti []).length + 1] := by
  have hlen : ti < tss.enum.length := by simpa using h
  unfold prefixTokenStartsToIdx
  rw [getD_map_lt _ _ ti hlen (0, []) [], List.getD_eq_getElem _ _ hlen,
    List.getElem_enum, List.getD_eq_getElem _ _ h]

/-- Claim C6: for every variant that prepends a sentence-start marker, indexing
shifts every raw token-start value by exactly +1 (applied once, never twice),
brackets the row with 0 at the front and `token_count + 1` at the end
(`SequenceClassificationWithSubwords.to_idx` and `SentenceProberDataset.to_idx`
share this code), and target indices are shifted by +1 under the same
convention (`SentenceProberDataset.to_idx`, `MidSentenceProberDataset.to_idx`). -/
theorem to_idx_shift_bracket (tokens tss : List (List Nat)) (targetIdx : List Nat)
    (ti : Nat) (h : ti < tss.length) :
    ((prefixTokenStartsToIdx tokens tss).getD ti []).length = (tss.getD ti []).length + 2
    ∧ ((prefixTokenStartsToIdx tokens tss).getD ti []).getD 0 0 = 0
    ∧ ((prefixTokenStartsToIdx tokens tss).getD ti []).getLast? =
        some ((tokens.getD ti []).length + 1)
    ∧ (∀ j, j < (tss.getD ti []).length →
        ((prefixTokenStartsToIdx tokens tss).getD ti []).getD (j + 1) 0 =
          (tss.getD ti []).getD j 0 + 1)
    ∧ (prefixTokenStartsToIdx tokens tss).length = tss.length
    ∧ (shiftTargetIdxToIdx targetIdx).length = targetIdx.length
    ∧ (∀ j, j < targetIdx.length →
        (shiftTargetIdxToIdx targetIdx).getD j 0 = targetIdx.getD j 0 + 1) := by
  rw [prefixTokenStartsToIdx_row tokens tss ti h]
  refine ⟨by simp, rfl, ?_, ?_, by simp [prefixTokenStartsToIdx], by simp [shiftTargetIdxToIdx], ?_⟩
  · exact List.getLast?_concat _
  · intro j hj
    rw [List.cons_append, List.getD_cons_succ,
      List.getD_append _ _ _ _ (by simpa using hj),
      getD_map_lt _ _ j hj 0 0]
  · intro j hj
    unfold shiftTargetIdxToIdx
    rw [getD_map_lt _ _ j hj 0 0]

/-- Claim C6 witness: the bracket and the exact +1 shift at a concrete indexed
row. -/
theorem to_idx_shift_bracket_witness :
    ((prefixTokenStartsToIdx [[9, 9, 9]] [[0, 2]]).getD 0 []).getD (1 + 1) 0 =
      (([[0, 2]] : List (List Nat)).getD 0 []).getD 1 0 + 1 :=
  (to_idx_shift_bracket [[9, 9, 9]] [[0, 2]] [5] 0 (by decide)).2.2.2.1 1 (by decide)

theorem foldl_maxLen_eq (l : List (List Nat)) : ∀ a : Nat,
    l.foldl (fun m t => max m t.length) a =
      max a (l.foldl (fun m t => max m t.length) 0) := by
  induction l with
  | nil => intro a; simp
  | cons t rest ih =>
    intro a
    simp only [List.foldl_cons]
    rw [ih (max a t.length), ih (max 0 t.length)]
    omega

theorem length_le_batchMaxLen (tss : List (List Nat)) (ts : List Nat)
    (h : ts ∈ tss) : ts.length ≤ batchMaxLen tss := by
  induction tss with
  | nil => simp at h
  | cons t rest ih =>
    have hc : batchMaxLen (t :: rest) = max t.length (batchMaxLen rest) := by
      simp only [batchMaxLen, List.foldl_cons]
      rw [foldl_maxLen_eq]
      omega
    rw [hc]
    rcases List.mem_cons.mp h with h | h
    · subst h; omega
    · have := ih h; omega

/-- Claim C7: in batched iteration every sample's token-start row is
right-padded with the sentinel 1000 up to the maximum token-start length of
that batch only: each padded row has exactly the batch-local maximum length,
its original entries are preserved, every padded slot holds exactly 1000, and
the same row is padded to different widths in different batches (so batch
widths are local, not global). -/
theorem batch_token_starts_padding (tss : List (List Nat)) (i : Nat)
    (h : i < tss.length) :
    ((padTokenStartsBatch tss).getD i []).length = batchMaxLen tss
    ∧ (∀ j, j < (tss.getD i []).length →
        ((padTokenStartsBatch tss).getD i []).getD j 0 = (tss.getD i []).getD j 0)
    ∧ (∀ j, (tss.getD i []).length ≤ j → j < batchMaxLen tss →
        ((padTokenStartsBatch tss).getD i []).getD j 0 = 1000)
    ∧ (padTokenStartsBatch [[0]]).getD 0 [] = [0]
    ∧ (padTokenStartsBatch [[0], [0, 7]]).getD 0 [] = [0, 1000] := by
  have hmem : tss.getD i [] ∈ tss := by
    rw [List.getD_eq_getElem _ _ h]
    exact List.getElem_mem h
  have hle := length_le_batchMaxLen tss _ hmem
  have hrow : (padTokenStartsBatch tss).getD i [] =
      tss.getD i [] ++ List.replicate (batchMaxLen tss - (tss.getD i []).length) 1000 := by
    unfold padTokenStartsBatch
    rw [getD_map_lt _ _ i h [] []]
  rw [hrow]
  refine ⟨by rw [List.length_append, List.length_replicate]; omega, ?_, ?_,
    by decide, by decide⟩
  · intro j hj
    rw [List.getD_append _ _ _ _ hj]
  · intro j hj1 hj2
    rw [List.getD_append_right _ _ _ _ hj1,
      List.getD_eq_getElem _ _ (by rw [List.length_replicate]; omega),
      List.getElem_replicate]

/-- Claim C7 witness: padding at a concrete two-row batch. -/
theorem batch_token_starts_padding_witness :
    ((padTokenStartsBatch [[0], [0, 7]]).getD 0 []).getD 1 0 = 1000 :=
  (batch_token_starts_padding [[0], [0, 7]] 0 (by decide)).2.2.1 1 (by decide) (by decide)

/-- Claim C8: batched iteration over unlabeled data (or with shuffling off)
yields batches in materialization order; for labeled data with shuffling on,
only the batch start offsets are permuted — every yielded batch is still the
contiguous slice `[start, start + batch_size)` of the materialized columns, so
the collection of batches is a permutation of the unshuffled collection and
batch membership is unchanged. -/
theorem batched_iter_order {α β : Type _} (targetWord : List α) (label : List β)
    (batchSize : Nat) (shuffle : List Nat → List Nat) (sh unlb : Bool)
    (hperm : (shuffle (batchStarts targetWord.length batchSize)).Perm
        (batchStarts targetWord.length batchSize)) :
    (embBatchedIter true sh shuffle targetWord label batchSize =
        (batchStarts targetWord.length batchSize).map
          (fun s => (pySlice targetWord s (s + batchSize),
            pySlice label s (s + batchSize))))
    ∧ (embBatchedIter unlb false shuffle targetWord label batchSize =
        (batchStarts targetWord.length batchSize).map
          (fun s => (pySlice targetWord s (s + batchSize),
            pySlice label s (s + batchSize))))
    ∧ (embBatchedIter false true shuffle targetWord label batchSize =
        (shuffle (batchStarts targetWord.length batchSize)).map
          (fun s => (pySlice targetWord s (s + batchSize),
            pySlice label s (s + batchSize))))
    ∧ (embBatchedIter false true shuffle targetWord label batchSize).Perm
        (embBatchedIter false false shuffle targetWord label batchSize) := by
  have h3 : embBatchedIter false true shuffle targetWord label batchSize =
      (shuffle (batchStarts targetWord.length batchSize)).map
        (fun s => (pySlice targetWord s (s + batchSize),
          pySlice label s (s + batchSize))) := by
    simp [embBatchedIter]
  have h2 : embBatchedIter false false shuffle targetWord label batchSize =
      (batchStarts targetWord.length batchSize).map
        (fun s => (pySlice targetWord s (s + batchSize),
          pySlice label s (s + batchSize))) := by
    simp [embBatchedIter]
  refine ⟨by simp [embBatchedIter], by simp [embBatchedIter], h3, ?_⟩
  rw [h3, h2]
  exact hperm.map _

/-- Claim C8 witness: a concrete labeled three-sample dataset iterated with
batch size 2 and a reversing shuffle yields the same two slices in reversed
order. -/
theorem batched_iter_order_witness :
    (embBatchedIter false true List.reverse ([10, 11, 12] : List Nat)
        ([1, 2, 3] : List Nat) 2).Perm
      (embBatchedIter false false List.reverse ([10, 11, 12] : List Nat)
        ([1, 2, 3] : List Nat) 2) :=
  (batched_iter_order [10, 11, 12] [1, 2, 3] 2 List.reverse false false
    (List.reverse_perm _)).2.2.2

/-- Claim C1 (code bug): in
`SentenceRepresentationProber._forward_elementwise_pool` the `'max'` branch is
written `if 'max': ... if 'sum': ... else: ...` instead of an `elif` chain, so
the element-wise maximum is computed and then unconditionally overwritten by
the `else` branch's mean: pooling the span `[[0], [2]]` under `'max'` returns
the mean `[1]`, not the span maximum `[2]`.
`TransformerForSequenceTagging._forward_with_cache` uses a correct `elif` chain
and does return the span maximum. -/
theorem max_pooling_elementwise_bug :
    forwardElementwisePool "max" [[[0], [2]]] [[0, 2]] [0] = [[1]]
    ∧ vecAmax (pySlice ([[0], [2]] : Mat) 0 2) = [2]
    ∧ forwardElementwisePool "max" [[[0], [2]]] [[0, 2]] [0] ≠ [[2]]
    ∧ taggingPoolCore vecAdd vecMaxTwo vecScale [] "max" [[[9], [0], [2]]]
        [[0, 1, 3, 4]] [1] 1 = [[2]] := by
  have e1 : (("max" : String) = "sum") = False := eq_false (by decide)
  have e2 : (("max" : String) = "avg") = False := eq_false (by decide)
  have e3 : (("max" : String) = "first") = False := eq_false (by decide)
  have e4 : (("max" : String) = "last") = False := eq_false (by decide)
  have e5 : (("max" : String) = "max") = True := eq_true rfl
  have h1 : forwardElementwisePool "max" [[[0], [2]]] [[0, 2]] [0] = [[1]] := by
    norm_num [forwardElementwisePool, pySlice, vecAmax, vecSumRows, vecMeanRows,
      vecScale, vecAdd, vecMaxTwo, foldStack, List.range_succ, e1, e2, e5]
  refine ⟨h1, ?_, ?_, ?_⟩
  · norm_num [vecAmax, pySlice, foldStack, vecMaxTwo]
  · rw [h1]
    norm_num
  · norm_num [taggingPoolCore, reduceSpan, pySlice, vecMaxTwo, vecAdd, vecScale,
      foldStack, List.range_succ, e1, e2, e3, e4, e5]

/-! ### Cache behavior lemmas -/

theorem taggingForwardWithCache_idem (sp lp : String) (w : List ℚ)
    (enc : List (List Nat) → List Emb3) (batch : TagBatch) (st : TagModelState)
    (out1 : PoolOut) (st1 : TagModelState)
    (h : taggingForwardWithCache sp lp w enc batch st = .ok (out1, st1)) :
    taggingForwardWithCache sp lp w enc batch st1 = .ok (out1, st1) := by
  unfold taggingForwardWithCache at h ⊢
  dsimp only at h ⊢
  cases hc : alookup batch.input.flatten st.cache with
  | some out =>
    rw [hc] at h
    simp only [Except.ok.injEq, Prod.mk.injEq] at h
    obtain ⟨ho, hst⟩ := h
    subst hst
    subst ho
    rw [hc]
  | none =>
    rw [hc] at h
    cases he : embedderEmbed lp w (enc batch.input) with
    | error e =>
      rw [he] at h
      exact absurd h (by simp)
    | ok eo =>
      rw [he] at h
      simp only [Except.ok.injEq, Prod.mk.injEq] at h
      obtain ⟨ho, hst⟩ := h
      subst ho
      subst hst
      rw [alookup_cons_self]

theorem proberForwardFirstLast_idem (sp : String) (lp : ProbLayerPooling)
    (shift : Int) (enc : List (List Nat) → List Emb3) (batch : ProbBatch)
    (st : ProbModelState) (out1 : Mat) (st1 : ProbModelState)
    (h : proberForwardFirstLast sp lp shift enc batch st = .ok (out1, st1)) :
    proberForwardFirstLast sp lp shift enc batch st1 = .ok (out1, st1) := by
  unfold proberForwardFirstLast at h ⊢
  dsimp only at h ⊢
  cases hc : alookup (batch.input.flatten, batch.target_idx) st.cache with
  | some cv =>
    rw [hc] at h
    simp only [Except.ok.injEq, Prod.mk.injEq] at h
    obtain ⟨ho, hst⟩ := h
    subst hst
    subst ho
    rw [hc]
  | none =>
    rw [hc] at h
    cases hi : firstLastIdxSelect sp ((enc batch.input).getD 0 []).length
        batch.token_starts batch.target_idx with
    | error e =>
      rw [hi] at h
      exact absurd h (by simp)
    | ok idx0 =>
      rw [hi] at h
      simp only [Except.ok.injEq, Prod.mk.injEq] at h
      obtain ⟨ho, hst⟩ := h
      subst ho
      subst hst
      rw [alookup_cons_self]

/-- Claim C4, counterexample: in `SentenceRepresentationProber`, `'max'`
pooling does not use the cache ("caching not supported"): two successive
forward calls on the identical batch each invoke the encoder (the embed-call
counter reaches 2, not 1) and the cache stays empty, contradicting the claim
that all five of `first`/`last`/`max`/`avg`/`sum` are served from the cache on
the second call. -/
theorem prober_elementwise_no_cache_cex :
    proberForward "max" (.layerIdx 0) 0 0 encP otherP batchP ⟨[], 0⟩ =
      .ok ([[5]], ⟨[], 1⟩)
    ∧ proberForward "max" (.layerIdx 0) 0 0 encP otherP batchP ⟨[], 1⟩ =
      .ok ([[5]], ⟨[], 2⟩)
    ∧ (2 : Nat) ≠ 1 := by
  have e1 : (("max" : String) = "sum") = False := eq_false (by decide)
  have e2 : (("max" : String) = "avg") = False := eq_false (by decide)
  have e3 : (("max" : String) = "first") = False := eq_false (by decide)
  have e4 : (("max" : String) = "last") = False := eq_false (by decide)
  have e5 : (("max" : String) = "max") = True := eq_true rfl
  have hmem : ("max" ∈ proberPoolKeys) = True := eq_true (by decide)
  refine ⟨?_, ?_, by decide⟩ <;>
    norm_num [proberForward, forwardElementwisePool, encP, otherP, batchP,
      pySlice, vecAmax, vecSumRows, vecMeanRows, vecScale, vecAdd, vecMaxTwo,
      foldStack, sumLayers, List.range_succ, e1, e2, e3, e4, e5, hmem]

/-- Claim C4 (amended): caching behaves as claimed in
`TransformerForSequenceTagging` for all five of
`first`/`last`/`max`/`sum`/`avg` — keyed by the exact flattened content of the
batch's input ids, a second call whose key matches returns the cached pooled
tensor, equal to the first call's result, with no further encoder invocation
and unchanged state.  In `SentenceRepresentationProber` only `first`/`last`
are cached (keyed by the flattened input ids plus the target indices, same
second-call behavior); `max`/`sum`/`avg` take the uncached path, which invokes
the encoder on every call and never touches the cache. -/
theorem pooling_cache_amended :
    (∀ sp lp w enc other batch st out1 st1,
      sp ∈ cachedPoolings →
      taggingForward sp lp w enc other batch st = .ok (out1, st1) →
      taggingForward sp lp w enc other batch st1 = .ok (out1, st1))
    ∧ (∀ sp lp shift wfl enc other batch st out1 st1,
      (sp = "first" ∨ sp = "last") →
      proberForward sp lp shift wfl enc other batch st = .ok (out1, st1) →
      proberForward sp lp shift wfl enc other batch st1 = .ok (out1, st1))
    ∧ (∀ sp lp shift wfl enc other batch st out1 st1,
      sp ∈ (["max", "sum", "avg"] : List String) →
      proberForward sp lp shift wfl enc other batch st = .ok (out1, st1) →
      st1.encoderCalls = st.encoderCalls + 1 ∧ st1.cache = st.cache) := by
  refine ⟨?_, ?_, ?_⟩
  · intro sp lp w enc other batch st out1 st1 hmem h
    fin_cases hmem <;>
    · unfold taggingForward at h ⊢
      rw [if_pos (by decide), if_pos (by decide)] at h ⊢
      exact taggingForwardWithCache_idem _ _ _ _ _ _ _ _ h
  · intro sp lp shift wfl enc other batch st out1 st1 hfl h
    rcases hfl with rfl | rfl <;>
    · unfold proberForward at h ⊢
      rw [if_pos (by decide)] at h ⊢
      exact proberForwardFirstLast_idem _ _ _ _ _ _ _ _ h
  · intro sp lp shift wfl enc other batch st out1 st1 hmem h
    fin_cases hmem <;>
    · unfold proberForward at h
      rw [if_neg (by decide)] at h
      cases lp with
      | weightedSum w' => exact absurd h (by simp)
      | layerSum =>
        dsimp only at h
        rw [if_pos (by decide)] at h
        simp only [Except.ok.injEq, Prod.mk.injEq] at h
        obtain ⟨-, hst⟩ := h
        subst hst
        exact ⟨rfl, rfl⟩
      | layerIdx i =>
        dsimp only at h
        rw [if_pos (by decide)] at h
        simp only [Except.ok.injEq, Prod.mk.injEq] at h
        obtain ⟨-, hst⟩ := h
        subst hst
        exact ⟨rfl, rfl⟩

/-- Claim C4 witness: a concrete tagging-model `'max'` batch whose second
forward call returns the cached result with unchanged state. -/
theorem pooling_cache_witness :
    taggingForward "max" "last" [] encW otherW batchW
        ⟨[([5], PoolOut.vecs [[7]])], 1⟩ =
      .ok (PoolOut.vecs [[7]], ⟨[([5], PoolOut.vecs [[7]])], 1⟩) :=
  pooling_cache_amended.1 "max" "last" [] encW otherW batchW ⟨[], 0⟩
    (PoolOut.vecs [[7]]) ⟨[([5], PoolOut.vecs [[7]])], 1⟩ (by decide) (by rfl)

/-- `Embedder.embed` on a layer-pooling name outside the recognized set (and
not an integer string) raises the source's `ValueError`, whose message names
the unrecognized strategy. -/
theorem embedderEmbed_unknown (lp : String) (w : List ℚ) (outL : List Emb3)
    (h1 : lp ∉ (["weighted_sum", "all", "sum", "last", "first"] : List String))
    (h2 : pyToIntOpt lp = none) :
    embedderEmbed lp w outL =
      .error (.valueErr ("Unknown pooling mechanism: " ++ lp)) := by
  simp only [List.mem_cons, List.mem_singleton, not_or] at h1
  obtain ⟨n1, n2, n3, n4, n5, -⟩ := h1
  unfold embedderEmbed
  rw [if_neg n1, if_neg n2, if_neg n3, if_neg n4, if_neg n5, h2]

/-- Claim C9, counterexample: a forward call with the unrecognized
subword-pooling name "bogus" fails the `pooling_func` dict lookup with a
`KeyError` carrying the name — not with a value error, contradicting the
claim. -/
theorem unknown_subword_pooling_keyerror_cex :
    taggingForward "bogus" "last" [] encW otherW batchW ⟨[], 0⟩ =
      .error (.keyErr "bogus")
    ∧ tagOutcomeIsValueErr
        (taggingForward "bogus" "last" [] encW otherW batchW ⟨[], 0⟩) = false := by
  exact ⟨rfl, rfl⟩

/-- Claim C9 (amended): an unrecognized layer-pooling name makes
`Embedder.embed` fail with a `ValueError` naming the strategy, reached from
`TransformerForSequenceTagging.forward` for the cached poolings whenever the
cache misses; an unrecognized subword-pooling name, in either model, fails the
`pooling_func` dict lookup with a `KeyError` naming the strategy — not a value
error. -/
theorem unknown_pooling_error_amended :
    (∀ sp lp w enc other batch st, sp ∉ tagPoolingKeys →
      taggingForward sp lp w enc other batch st = .error (.keyErr sp))
    ∧ (∀ sp lp shift wfl enc other batch st, sp ∉ proberPoolKeys →
      (∀ w', lp ≠ ProbLayerPooling.weightedSum w') →
      proberForward sp lp shift wfl enc other batch st = .error (.keyErr sp))
    ∧ (∀ sp lp w enc other batch st, sp ∈ cachedPoolings →
      alookup batch.input.flatten st.cache = none →
      lp ∉ (["weighted_sum", "all", "sum", "last", "first"] : List String) →
      pyToIntOpt lp = none →
      taggingForward sp lp w enc other batch st =
        .error (.valueErr ("Unknown pooling mechanism: " ++ lp))) := by
  refine ⟨?_, ?_, ?_⟩
  · intro sp lp w enc other batch st hmem
    unfold taggingForward
    rw [if_neg hmem]
  · intro sp lp shift wfl enc other batch st hmem hlp
    have hfl : ¬(sp = "first" ∨ sp = "last") := by
      rintro (rfl | rfl) <;> exact hmem (by decide)
    unfold proberForward
    rw [if_neg hfl]
    cases lp with
    | weightedSum w' => exact absurd rfl (hlp w')
    | layerSum =>
      dsimp only
      rw [if_neg hmem]
    | layerIdx i =>
      dsimp only
      rw [if_neg hmem]
  · intro sp lp w enc other batch st hmem hcache hlp hint
    fin_cases hmem <;>
    · unfold taggingForward
      rw [if_pos (by decide), if_pos (by decide)]
      unfold taggingForwardWithCache
      dsimp only
      rw [hcache, embedderEmbed_unknown lp w _ hlp hint]

/-- Claim C9 witness: the amended error behavior at concrete unknown names —
"bogus" as subword pooling in the prober (key error) and "bogus2" as layer
pooling in the tagging model (value error naming it). -/
theorem unknown_pooling_error_witness :
    proberForward "bogus" (.layerIdx 0) 0 0 encP otherP batchP ⟨[], 0⟩ =
      .error (.keyErr "bogus")
    ∧ taggingForward "max" "bogus2" [] encW otherW batchW ⟨[], 0⟩ =
      .error (.valueErr ("Unknown pooling mechanism: " ++ "bogus2")) :=
  ⟨unknown_pooling_error_amended.2.1 "bogus" (.layerIdx 0) 0 0 encP otherP batchP
      ⟨[], 0⟩ (by decide) (fun w' h => ProbLayerPooling.noConfusion h),
    unknown_pooling_error_amended.2.2 "max" "bogus2" [] encW otherW batchW
      ⟨[], 0⟩ (by decide) rfl (by decide) (by decide)⟩
